import Mathlib

/-
Verification of the semantic similarity subsystem of the AI-Legal-System
repository (src/similarity_engine.py) against its natural-language
specification.  The Python values that flow through the subsystem (JSON
records: None, strings, lists, dicts) are modelled by the inductive type
Value; a Case is an association list from string keys to Values, mirroring
a Python dict with insertion order.  Machine floats only ever reach the
ranking code through comparisons, so similarity scores are modelled as
rationals and the embedding model itself (an external collaborator) is
modelled by passing the similarity vector it would produce as an argument.
-/

/-- JSON-like Python value: None, str, list or dict (insertion-ordered
association list), the shapes flatten_field in similarity_engine.py
handles. -/
inductive Value where
  | vnull
  | vstr (s : String)
  | vlist (xs : List Value)
  | vdict (kvs : List (String × Value))

/-- Python truthiness for Value: None, empty string, empty list and empty
dict are falsy, everything else truthy. -/
def truthy : Value → Bool
  | .vnull => false
  | .vstr s => s != ""
  | .vlist xs => !xs.isEmpty
  | .vdict kvs => !kvs.isEmpty

mutual

/-- Boolean structural equality on Value, mirroring Python equality on
JSON-shaped data. -/
def valueBeq : Value → Value → Bool
  | .vnull, .vnull => true
  | .vstr s, .vstr t => s == t
  | .vlist xs, .vlist ys => valueListBeq xs ys
  | .vdict xs, .vdict ys => valuePairsBeq xs ys
  | _, _ => false

/-- Elementwise valueBeq on lists. -/
def valueListBeq : List Value → List Value → Bool
  | [], [] => true
  | x :: xs, y :: ys => valueBeq x y && valueListBeq xs ys
  | _, _ => false

/-- Elementwise valueBeq on key-value pair lists. -/
def valuePairsBeq : List (String × Value) → List (String × Value) → Bool
  | [], [] => true
  | x :: xs, y :: ys => (x.1 == y.1 && valueBeq x.2 y.2) && valuePairsBeq xs ys
  | _, _ => false

end

mutual

/-- Induction principle for the nested inductive Value. -/
theorem valueIndOn (P : Value → Prop)
    (h0 : P .vnull) (h1 : ∀ s, P (.vstr s))
    (h2 : ∀ xs, (∀ v ∈ xs, P v) → P (.vlist xs))
    (h3 : ∀ kvs, (∀ kv ∈ kvs, P kv.2) → P (.vdict kvs)) : ∀ v, P v
  | .vnull => h0
  | .vstr s => h1 s
  | .vlist xs => h2 xs (valueIndList P h0 h1 h2 h3 xs)
  | .vdict kvs => h3 kvs (valueIndPairs P h0 h1 h2 h3 kvs)

/-- Companion of valueIndOn for lists of Values. -/
theorem valueIndList (P : Value → Prop)
    (h0 : P .vnull) (h1 : ∀ s, P (.vstr s))
    (h2 : ∀ xs, (∀ v ∈ xs, P v) → P (.vlist xs))
    (h3 : ∀ kvs, (∀ kv ∈ kvs, P kv.2) → P (.vdict kvs)) :
    ∀ xs : List Value, ∀ v ∈ xs, P v
  | x :: xs, v, hv => by
      rcases List.mem_cons.mp hv with h | h
      · exact h ▸ valueIndOn P h0 h1 h2 h3 x
      · exact valueIndList P h0 h1 h2 h3 xs v h

/-- Companion of valueIndOn for key-value pair lists. -/
theorem valueIndPairs (P : Value → Prop)
    (h0 : P .vnull) (h1 : ∀ s, P (.vstr s))
    (h2 : ∀ xs, (∀ v ∈ xs, P v) → P (.vlist xs))
    (h3 : ∀ kvs, (∀ kv ∈ kvs, P kv.2) → P (.vdict kvs)) :
    ∀ kvs : List (String × Value), ∀ kv ∈ kvs, P kv.2
  | x :: xs, kv, hkv => by
      rcases List.mem_cons.mp hkv with h | h
      · exact h ▸ valueIndOn P h0 h1 h2 h3 x.2
      · exact valueIndPairs P h0 h1 h2 h3 xs kv h

end

theorem valueBeq_refl : ∀ v, valueBeq v v = true := by
  intro v
  induction v using valueIndOn with
  | h0 => rfl
  | h1 s => simp [valueBeq]
  | h2 xs ih =>
      show valueListBeq xs xs = true
      induction xs with
      | nil => rfl
      | cons x xs ihx =>
          simp only [valueListBeq, Bool.and_eq_true]
          exact ⟨ih x (by simp), ihx (fun v hv => ih v (by simp [hv]))⟩
  | h3 kvs ih =>
      show valuePairsBeq kvs kvs = true
      induction kvs with
      | nil => rfl
      | cons x xs ihx =>
          simp only [valuePairsBeq, Bool.and_eq_true]
          exact ⟨⟨by simp, ih x (by simp)⟩, ihx (fun kv hkv => ih kv (by simp [hkv]))⟩

theorem valueBeq_eq : ∀ a b, valueBeq a b = true → a = b := by
  intro a
  induction a using valueIndOn with
  | h0 => intro b h; cases b <;> first | rfl | exact absurd h (by simp [valueBeq])
  | h1 s =>
      intro b h
      cases b <;> simp [valueBeq] at h ⊢
      exact h
  | h2 xs ih =>
      intro b h
      cases b <;> simp only [valueBeq] at h ⊢
      · exact absurd h (by simp)
      · exact absurd h (by simp)
      case vlist ys =>
        congr 1
        induction xs generalizing ys with
        | nil => cases ys with
            | nil => rfl
            | cons y ys => exact absurd h (by simp [valueListBeq])
        | cons x xs ihx =>
            cases ys with
            | nil => exact absurd h (by simp [valueListBeq])
            | cons y ys =>
                simp only [valueListBeq, Bool.and_eq_true] at h
                have e1 := ih x (by simp) y h.1
                have e2 := ihx (fun v hv => ih v (by simp [hv])) ys h.2
                rw [e1, e2]
      · exact absurd h (by simp)
  | h3 kvs ih =>
      intro b h
      cases b <;> simp only [valueBeq] at h ⊢
      · exact absurd h (by simp)
      · exact absurd h (by simp)
      · exact absurd h (by simp)
      case vdict ys =>
        congr 1
        induction kvs generalizing ys with
        | nil => cases ys with
            | nil => rfl
            | cons y ys => exact absurd h (by simp [valuePairsBeq])
        | cons x xs ihx =>
            cases ys with
            | nil => exact absurd h (by simp [valuePairsBeq])
            | cons y ys =>
                simp only [valuePairsBeq, Bool.and_eq_true] at h
                obtain ⟨⟨hk, hv⟩, ht⟩ := h
                have e1 := ih x (by simp) y.2 hv
                have e2 := ihx (fun kv hkv => ih kv (by simp [hkv])) ys ht
                have e3 : x = y := Prod.ext (by simpa using hk) e1
                rw [e3, e2]

instance : DecidableEq Value := fun a b =>
  decidable_of_iff (valueBeq a b = true)
    ⟨valueBeq_eq a b, fun h => h ▸ valueBeq_refl a⟩

/-- Case record: a Python dict from field names to values, as an
insertion-ordered association list. -/
abbrev Case := List (String × Value)

/-- Python case.get(key, default): value of the first matching key, or the
default when the key is absent. -/
def caseGetD (c : Case) (key : String) (dflt : Value) : Value :=
  match c.find? (fun kv => kv.1 == key) with
  | some kv => kv.2
  | none => dflt

/-- Python case.get(key) with no default: absent keys give None. -/
def caseGet (c : Case) (key : String) : Value :=
  caseGetD c key .vnull

/-- Python value of the expression a or b: the first operand when truthy,
otherwise the second. -/
def pyOr (a b : Value) : Value :=
  if truthy a then a else b

/-- Python str.strip on a character list: drop whitespace from both ends. -/
def stripList (l : List Char) : List Char :=
  ((l.dropWhile Char.isWhitespace).reverse.dropWhile Char.isWhitespace).reverse

/-- Python text.strip(). -/
def strStrip (s : String) : String :=
  String.mk (stripList s.data)

/-- Python text[:n] slicing. -/
def strTake (n : Nat) (s : String) : String :=
  String.mk (s.data.take n)

/-- Python len(text). -/
def pyLen (s : String) : Nat :=
  s.data.length

/-- Single quote character, used by the Python string repr. -/
def squote : Char := '\''

/-- Double quote character. -/
def dquote : Char := '"'

/-- Escape one character for a Python string repr using the given quote
character. -/
def pyEscapeChar (q c : Char) : List Char :=
  if c = '\\' then ['\\', '\\']
  else if c = q then ['\\', q]
  else if c = '\n' then ['\\', 'n']
  else if c = '\r' then ['\\', 'r']
  else if c = '\t' then ['\\', 't']
  else [c]

/-- Python repr of a string: single-quoted unless the string contains a
single quote and no double quote, in which case double-quoted. -/
def pyQuote (s : String) : String :=
  let q := if s.data.contains squote && !s.data.contains dquote then dquote else squote
  String.mk (q :: (s.data.flatMap (pyEscapeChar q)) ++ [q])

mutual

/-- Python str(value) as used by the dict branch of flatten_field:
strings render as themselves, None as the word None, lists and dicts as
their container repr. -/
def pyStr : Value → String
  | .vnull => "None"
  | .vstr s => s
  | .vlist xs => "[" ++ String.intercalate ", " (pyReprList xs) ++ "]"
  | .vdict kvs => "\x7b" ++ String.intercalate ", " (pyReprPairs kvs) ++ "\x7d"

/-- Python repr(value): like pyStr but strings are quoted. -/
def pyRepr : Value → String
  | .vnull => "None"
  | .vstr s => pyQuote s
  | .vlist xs => "[" ++ String.intercalate ", " (pyReprList xs) ++ "]"
  | .vdict kvs => "\x7b" ++ String.intercalate ", " (pyReprPairs kvs) ++ "\x7d"

/-- Reprs of the elements of a list value. -/
def pyReprList : List Value → List String
  | [] => []
  | v :: vs => pyRepr v :: pyReprList vs

/-- Reprs of the key-value pairs of a dict value. -/
def pyReprPairs : List (String × Value) → List String
  | [] => []
  | kv :: rest => (pyQuote kv.1 ++ ": " ++ pyRepr kv.2) :: pyReprPairs rest

end

mutual

/-- Translation of flatten_field (similarity_engine.py lines 14-33):
None and the empty string give the empty string, strings pass through,
lists recursively flatten their elements keeping only those whose
flattened form is truthy and has a truthy strip, joined by single spaces,
and dicts join str(v) over their truthy values.  The final str(value)
fallback of the source is unreachable for JSON-shaped values. -/
def flatten_field : Value → String
  | .vnull => ""
  | .vstr s => s
  | .vlist xs =>
      String.intercalate " " ((flattenList xs).filter (fun f => f != "" && strStrip f != ""))
  | .vdict kvs =>
      String.intercalate " " (((kvs.map (fun kv => kv.2)).filter truthy).map pyStr)

/-- flatten_field mapped over the elements of a list value. -/
def flattenList : List Value → List String
  | [] => []
  | v :: vs => flatten_field v :: flattenList vs

end

/-- Text consisting only of whitespace (the empty string included). -/
def isBlankStr (f : String) : Bool :=
  f.data.all Char.isWhitespace

mutual

/-- Spec-side restatement of claim C10, written from its words: None and
the empty string map to the empty string, list elements whose flattened
form is empty or whitespace-only are dropped before joining with single
spaces, and mapping values that are falsy are dropped, the rest rendered
via their string conversion. -/
def flattenSpec : Value → String
  | .vnull => ""
  | .vstr s => s
  | .vlist xs =>
      String.intercalate " " ((flattenSpecList xs).filter (fun f => !isBlankStr f))
  | .vdict kvs =>
      String.intercalate " " (((kvs.map (fun kv => kv.2)).filter truthy).map pyStr)

/-- flattenSpec mapped over the elements of a list value. -/
def flattenSpecList : List Value → List String
  | [] => []
  | v :: vs => flattenSpec v :: flattenSpecList vs

end

/-- Word character for the regex metacharacter b (word boundary), ASCII
reading of the Python w class. -/
def isWordChar (c : Char) : Bool :=
  c.isAlphanum || c = '_'

/-- Word boundary before a match that starts with a word character: the
previous character, when there is one, is not a word character. -/
def prevBoundary (prev : Option Char) : Bool :=
  match prev with
  | none => true
  | some c => !isWordChar c

/-- Word boundary after a match that ends with a word character: the next
character, when there is one, is not a word character. -/
def nextBoundary : List Char → Bool
  | [] => true
  | c :: _ => !isWordChar c

/-- A sub rule: given the previous character of the original text and the
text from the current position, optionally return the replacement, the
consumed characters and the remaining text. -/
abbrev SubRule := Option Char → List Char → Option (List Char × List Char × List Char)

/-- Scanner for re.sub: walk the text left to right, applying the first
rule match at each position, skipping past consumed characters, with fuel
bounding the number of steps (one character or one match per step, so the
text length suffices). -/
def subScan (m : SubRule) : Nat → Option Char → List Char → List Char
  | 0, _, l => l
  | _ + 1, _, [] => []
  | fuel + 1, prev, c :: cs =>
      match m prev (c :: cs) with
      | some (rep, consumed, rest) =>
          rep ++ subScan m fuel (consumed.getLast?.orElse (fun _ => prev)) rest
      | none => c :: subScan m fuel (some c) cs

/-- Python re.sub with the given rule over a string. -/
def pySub (m : SubRule) (s : String) : String :=
  String.mk (subScan m s.data.length none s.data)

/-- Match an exact text case-insensitively, returning the consumed
characters and the rest. -/
def matchCaseless : List Char → List Char → Option (List Char × List Char)
  | [], l => some ([], l)
  | _ :: _, [] => none
  | p :: ps, c :: cs =>
      if c.toLower = p.toLower then
        (matchCaseless ps cs).map (fun pr => (c :: pr.1, pr.2))
      else none

/-- Rule for the pattern b([A-Z]).s*([A-Z]).s*([A-Z]) replaced by the
three letters (dotted initials of three capitals, similarity_engine.py
line 107). -/
def ruleInitials3 : SubRule := fun prev l =>
  if !prevBoundary prev then none
  else
    match l with
    | a :: '.' :: r1 =>
        if !a.isUpper then none
        else
          let ws1 := r1.takeWhile Char.isWhitespace
          match r1.dropWhile Char.isWhitespace with
          | b :: '.' :: r2 =>
              if !b.isUpper then none
              else
                let ws2 := r2.takeWhile Char.isWhitespace
                match r2.dropWhile Char.isWhitespace with
                | c3 :: rest =>
                    if !c3.isUpper then none
                    else
                      some ([a, b, c3],
                        a :: '.' :: ws1 ++ b :: '.' :: ws2 ++ [c3], rest)
                | [] => none
          | _ => none
    | _ => none

/-- Rule for the pattern b([A-Z]).s*([A-Z]) replaced by the two letters
(dotted initials of two capitals, similarity_engine.py line 108). -/
def ruleInitials2 : SubRule := fun prev l =>
  if !prevBoundary prev then none
  else
    match l with
    | a :: '.' :: r1 =>
        if !a.isUpper then none
        else
          let ws1 := r1.takeWhile Char.isWhitespace
          match r1.dropWhile Char.isWhitespace with
          | b :: rest =>
              if !b.isUpper then none
              else some ([a, b], a :: '.' :: ws1 ++ [b], rest)
          | [] => none
    | _ => none

/-- Rule for the case-insensitive pattern bSection s+(d+[A-Z]?)b replaced
by the captured group (similarity_engine.py line 111).  Under IGNORECASE
the optional [A-Z] also matches a lowercase letter; when taking the
optional letter breaks the trailing word boundary the regex engine
backtracks to the empty option, which then fails the boundary against the
letter itself, so no match. -/
def ruleSection : SubRule := fun prev l =>
  if !prevBoundary prev then none
  else
    match matchCaseless "Section".data l with
    | none => none
    | some (sec, r1) =>
        let ws1 := r1.takeWhile Char.isWhitespace
        if ws1.isEmpty then none
        else
          let r2 := r1.dropWhile Char.isWhitespace
          let digits := r2.takeWhile Char.isDigit
          if digits.isEmpty then none
          else
            match r2.dropWhile Char.isDigit with
            | x :: rest =>
                if x.isAlpha then
                  if nextBoundary rest then
                    some (digits ++ [x], sec ++ ws1 ++ digits ++ [x], rest)
                  else none
                else if isWordChar x then none
                else some (digits, sec ++ ws1 ++ digits, x :: rest)
            | [] => some (digits, sec ++ ws1 ++ digits, [])

/-- Rule for a case-insensitive literal phrase between word boundaries,
replaced by a fixed abbreviation (similarity_engine.py lines 114-116). -/
def ruleActName (pat rep : String) : SubRule := fun prev l =>
  if !prevBoundary prev then none
  else
    match matchCaseless pat.data l with
    | none => none
    | some (m, rest) =>
        if nextBoundary rest then some (rep.data, m, rest) else none

/-- Translation of normalize_legal_terms (similarity_engine.py lines
101-118): empty input returns the empty string, then the six re.sub rules
apply in source order. -/
def normalize_legal_terms (text : String) : String :=
  if text = "" then ""
  else
    let t1 := pySub ruleInitials3 text
    let t2 := pySub ruleInitials2 t1
    let t3 := pySub ruleSection t2
    let t4 := pySub (ruleActName "Indian Penal Code" "IPC") t3
    let t5 := pySub (ruleActName "Code of Criminal Procedure" "CrPC") t4
    pySub (ruleActName "Income Tax Act" "IT Act") t5

example : normalize_legal_terms "A. B. C" = "ABC" := by decide

example : normalize_legal_terms "A. B" = "AB" := by decide

example : normalize_legal_terms "Section 302" = "302" := by decide

example : normalize_legal_terms "section 302A applies" = "302A applies" := by decide

example : normalize_legal_terms "the Indian Penal Code" = "the IPC" := by decide

example : normalize_legal_terms "Income Tax Act" = "IT Act" := by decide

example : normalize_legal_terms "Code of Criminal Procedure" = "CrPC" := by decide

example : normalize_legal_terms "no legal terms here" = "no legal terms here" := by decide

/-- One priority block of prepare_text_for_embedding: when the raw-value
guard holds, flatten the value, cap it, normalize it, and emit the given
number of repeated copies provided the normalized text has a truthy
strip; otherwise emit nothing. -/
def weightedChunk (guard : Prop) [Decidable guard] (v : Value) (cap w : Nat) : List String :=
  if guard then
    let normalized := normalize_legal_terms (strTake cap (flatten_field v))
    if strStrip normalized = "" then [] else List.replicate w normalized
  else []

/-- Values of the nine prioritized content fields of a case, with the
alternate-key fallbacks of the source (lines 128, 135, 149, 163). -/
def fieldLegalIssues (c : Case) : Value :=
  pyOr (caseGetD c "legal_issues" (.vstr "")) (caseGetD c "legalissues" (.vstr ""))

def fieldPrimaryIssue (c : Case) : Value :=
  pyOr (caseGetD c "primary_legal_issue" (.vstr "")) (caseGetD c "primarylegalissue" (.vstr ""))

def fieldSummary (c : Case) : Value :=
  caseGetD c "summary" (.vstr "")

def fieldLegalPoints (c : Case) : Value :=
  pyOr (caseGetD c "key_legal_points" (.vstr "")) (caseGetD c "keylegalpoints" (.vstr ""))

def fieldFacts (c : Case) : Value :=
  caseGetD c "facts" (.vstr "")

def fieldReasoning (c : Case) : Value :=
  pyOr (caseGetD c "judgment_reasoning" (.vstr "")) (caseGetD c "judgmentreasoning" (.vstr ""))

def fieldActs (c : Case) : Value :=
  caseGetD c "acts_referred" (.vstr "")

def fieldArguments (c : Case) : Value :=
  caseGetD c "arguments" (.vstr "")

def fieldPrecedents (c : Case) : Value :=
  caseGetD c "precedents_cited" (.vstr "")

/-- The nine weighted content chunks of prepare_text_for_embedding
(similarity_engine.py lines 127-188), in source order with the source
guards, caps and repetition weights. -/
def prepareChunks (c : Case) : List String :=
  weightedChunk (truthy (fieldLegalIssues c)) (fieldLegalIssues c) 800 4
  ++ weightedChunk (truthy (fieldPrimaryIssue c)
        ∧ fieldPrimaryIssue c ≠ .vstr "Unknown"
        ∧ fieldPrimaryIssue c ≠ .vstr "Unknown legal issue") (fieldPrimaryIssue c) 400 4
  ++ weightedChunk (truthy (fieldSummary c) ∧ fieldSummary c ≠ .vstr "Unknown")
        (fieldSummary c) 1000 3
  ++ weightedChunk (truthy (fieldLegalPoints c)) (fieldLegalPoints c) 800 3
  ++ weightedChunk (truthy (fieldFacts c) ∧ fieldFacts c ≠ .vstr "Unknown")
        (fieldFacts c) 600 2
  ++ weightedChunk (truthy (fieldReasoning c) ∧ fieldReasoning c ≠ .vstr "Unknown")
        (fieldReasoning c) 600 2
  ++ weightedChunk (truthy (fieldActs c)) (fieldActs c) 400 2
  ++ weightedChunk (truthy (fieldArguments c) ∧ fieldArguments c ≠ .vstr "Unknown")
        (fieldArguments c) 500 1
  ++ weightedChunk (truthy (fieldPrecedents c)) (fieldPrecedents c) 400 1

/-- The metadata tags of prepare_text_for_embedding (similarity_engine.py
lines 190-201): a Type tag guarded by truthiness and not being the
sentinel Unknown, and Outcome and Court tags guarded by truthiness
alone. -/
def metaTags (c : Case) : List String :=
  (if truthy (caseGetD c "case_type" (.vstr ""))
      ∧ caseGetD c "case_type" (.vstr "") ≠ .vstr "Unknown"
   then ["Type: " ++ pyStr (caseGetD c "case_type" (.vstr ""))] else [])
  ++ (if truthy (caseGetD c "predicted_outcome" (.vstr ""))
      then ["Outcome: " ++ pyStr (caseGetD c "predicted_outcome" (.vstr ""))] else [])
  ++ (if truthy (caseGetD c "court" (.vstr ""))
      then ["Court: " ++ pyStr (caseGetD c "court" (.vstr ""))] else [])

/-- The full parts list built by prepare_text_for_embedding. -/
def prepareParts (c : Case) : List String :=
  prepareChunks c ++ metaTags c

/-- The space-joined combination of all parts (line 204). -/
def combinedOf (c : Case) : String :=
  String.intercalate " " (prepareParts c)

/-- The placeholder document for cases with no extractable text
(line 211). -/
def placeholderOf (c : Case) : String :=
  "Case " ++ pyStr (caseGetD c "case_id" (.vstr "unknown")) ++ " - No extractable text"

/-- The combined text after the cap of lines 207-208: truncated to 10000
characters when longer. -/
def truncatedOf (c : Case) : String :=
  if pyLen (combinedOf c) > 10000 then strTake 10000 (combinedOf c) else combinedOf c

/-- Translation of prepare_text_for_embedding (similarity_engine.py lines
120-213): falsy or non-dict cases give the fixed text Empty case;
otherwise the weighted parts are joined with single spaces, truncated to
10000 characters when longer, and replaced by the placeholder when the
result is empty or whitespace-only. -/
def prepare_text_for_embedding (c : Case) : String :=
  if c.isEmpty then "Empty case"
  else if truncatedOf c = "" ∨ strStrip (truncatedOf c) = "" then placeholderOf c
  else truncatedOf c

example : prepare_text_for_embedding [] = "Empty case" := by decide

example :
    prepare_text_for_embedding [("summary", .vstr "murder case")]
      = "murder case murder case murder case" := by decide

example :
    prepare_text_for_embedding [("case_type", .vstr "Criminal"), ("court", .vstr "SC")]
      = "Type: Criminal Court: SC" := by decide

example :
    prepare_text_for_embedding [("case_id", .vstr "X1")]
      = "Case X1 - No extractable text" := by decide

example :
    prepare_text_for_embedding [("summary", .vstr "Section 302 applies")]
      = "302 applies 302 applies 302 applies" := by decide

/-- Similarity score of corpus index i in the similarity vector (0 when
out of range, which never occurs for indices produced by the sort). -/
def ordKey (sims : List ℚ) (i : Nat) : ℚ :=
  sims.getD i 0

/-- Stable insertion of an index into an ascending-by-score index list:
the new index, which is always smaller than every index already present,
goes before the first index of greater-or-equal score. -/
def insertRanked (sims : List ℚ) (i : Nat) : List Nat → List Nat
  | [] => [i]
  | j :: rest =>
      if ordKey sims i ≤ ordKey sims j then i :: j :: rest
      else j :: insertRanked sims i rest

/-- Stable ascending argsort of the index list by score. -/
def argsortAsc (sims : List ℚ) : List Nat → List Nat
  | [] => []
  | i :: rest => insertRanked sims i (argsortAsc sims rest)

/-- Model of np.argsort(similarities)[::-1] (similarity_engine.py lines
377 and 424): a stable ascending argsort over all corpus indices,
reversed wholesale.  NumPy does not promise stability for its default
sort, but its introsort is stable on small arrays (insertion sort below
its threshold); the reversal is what decides the tie order either way. -/
def rankIndices (sims : List ℚ) : List Nat :=
  (argsortAsc sims (List.range sims.length)).reverse

/-- Error taxonomy of the two ranking entry points, mapping the
ValueError raised for a missing matrix, the ValueError raised for a blank
query, and the IndexError reachable when the matrix has more rows than
the corpus has cases. -/
inductive RankErr where
  | cacheUnavailable
  | invalidQuery
  | indexErr
deriving DecidableEq

/-- State of a SimilarityCaseFinder as far as the ranking and cache code
reads it: the loaded corpus, the optional embedding matrix, the
configured model identifier and the device label. -/
structure EngineState where
  cases : List Case
  embeddings : Option (List (List ℚ))
  modelName : String
  device : String
deriving DecidableEq

/-- Translation of find_similar (similarity_engine.py lines 355-395).
The entire body runs under a try/except that logs and returns the empty
list, so the caller always receives a plain result: a missing matrix
returns the empty list (line 358-360), and an IndexError raised while
indexing the corpus inside the comprehensions is swallowed into the
empty list as well.  The query embedding and cosine similarities are
produced by the external model, so the resulting similarity vector is an
argument; the state is returned unchanged because the method never
writes the embeddings. -/
def find_similar (st : EngineState) (query_case : Case) (sims : List ℚ)
    (topk : Nat) (exclude_self : Bool) :
    Except RankErr (List (Case × ℚ)) × EngineState :=
  match st.embeddings with
  | none => (.ok [], st)
  | some _ =>
      let ti := rankIndices sims
      if exclude_self then
        if ti.all (fun i => i < st.cases.length) then
          let qid := caseGet query_case "case_id"
          let ti2 := ti.filter (fun i => caseGet (st.cases.getD i []) "case_id" ≠ qid)
          (.ok ((ti2.take topk).map (fun i => (st.cases.getD i [], ordKey sims i))), st)
        else (.ok [], st)
      else
        if (ti.take topk).all (fun i => i < st.cases.length) then
          (.ok ((ti.take topk).map (fun i => (st.cases.getD i [], ordKey sims i))), st)
        else (.ok [], st)

/-- Translation of find_similar_by_text (similarity_engine.py lines
397-434).  A missing matrix raises the no-embeddings ValueError before
anything else (line 403-404), a blank query raises the empty-query
ValueError (line 406-407), and the except block re-raises, so these
errors reach the caller.  The query text is then normalized and embedded
by the external model, so the similarity vector is an argument; the
state is returned unchanged because the method never writes the
embeddings. -/
def find_similar_by_text (st : EngineState) (query_text : String) (sims : List ℚ)
    (topk : Nat) :
    Except RankErr (List (Case × ℚ)) × EngineState :=
  match st.embeddings with
  | none => (.error .cacheUnavailable, st)
  | some _ =>
      if query_text = "" ∨ strStrip query_text = "" then (.error .invalidQuery, st)
      else
        let ti := (rankIndices sims).take topk
        if ti.all (fun i => i < st.cases.length) then
          (.ok (ti.map (fun i => (st.cases.getD i [], ordKey sims i))), st)
        else (.error .indexErr, st)

/-- Content of the embeddings pickle file exactly as save_embeddings
writes it (similarity_engine.py lines 343-350): the matrix plus the model
identifier, dimensionality, case count and device recorded alongside
it. -/
structure CacheData where
  embeddings : List (List ℚ)
  modelName : String
  embeddingDim : Nat
  numCases : Nat
  device : String
deriving DecidableEq

/-- Translation of load_or_compute_embeddings (similarity_engine.py lines
317-334).  The disk argument is the cache file: some cache when the file
exists and deserializes, none when it is missing or corrupt.  On a
successful load the stored matrix is installed verbatim and the method
returns at once (lines 322-326); no field of the cache is compared
against the current corpus or the configured model.  Otherwise the matrix
computed by the embedding backend (an external collaborator, passed as
the computed argument) is installed and saved. -/
def load_or_compute_embeddings (st : EngineState) (disk : Option CacheData)
    (computed : List (List ℚ)) : EngineState :=
  match disk with
  | some cache => ⟨st.cases, some cache.embeddings, st.modelName, st.device⟩
  | none => ⟨st.cases, some computed, st.modelName, st.device⟩

instance {ε α : Type} [DecidableEq ε] [DecidableEq α] : DecidableEq (Except ε α) := fun a b =>
  match a, b with
  | .ok x, .ok y => decidable_of_iff (x = y) (by simp)
  | .error x, .error y => decidable_of_iff (x = y) (by simp)
  | .ok _, .error _ => isFalse (by simp)
  | .error _, .ok _ => isFalse (by simp)

example : rankIndices [1, 1] = [1, 0] := by decide

example : rankIndices [1, 3, 2] = [1, 2, 0] := by decide

example :
    (find_similar_by_text ⟨[[("case_id", .vstr "A")], [("case_id", .vstr "B")]],
        some [[1], [1]], "m", "cpu"⟩ "tax" [2, 1] 1).1
      = .ok [([("case_id", .vstr "A")], 2)] := by decide

theorem stringMk_eq_empty (l : List Char) : String.mk l = "" ↔ l = [] := by
  constructor
  · intro h
    have := congrArg String.data h
    simpa using this
  · intro h
    rw [h]

theorem stripList_eq_nil (l : List Char) :
    stripList l = [] ↔ l.all Char.isWhitespace = true := by
  unfold stripList
  constructor
  · intro h
    have h1 : (l.dropWhile Char.isWhitespace).reverse.dropWhile Char.isWhitespace = [] := by
      have := congrArg List.reverse h
      simpa using this
    have h2 : ∀ a ∈ (l.dropWhile Char.isWhitespace).reverse, Char.isWhitespace a = true :=
      List.dropWhile_eq_nil_iff.mp h1
    have h3 : ∀ a ∈ l.dropWhile Char.isWhitespace, Char.isWhitespace a = true := by
      intro a ha
      exact h2 a (List.mem_reverse.mpr ha)
    rw [List.all_eq_true]
    intro a ha
    rcases (List.takeWhile_append_dropWhile (p := Char.isWhitespace) (l := l)) ▸ ha with h
    rcases List.mem_append.mp h with h4 | h4
    · exact List.mem_takeWhile_imp h4
    · exact h3 a h4
  · intro h
    have h1 : l.dropWhile Char.isWhitespace = [] := by
      rw [List.dropWhile_eq_nil_iff]
      intro a ha
      exact (List.all_eq_true.mp h) a ha
    rw [h1]
    rfl

theorem strStrip_eq_empty (s : String) : strStrip s = "" ↔ isBlankStr s = true := by
  unfold strStrip isBlankStr
  rw [stringMk_eq_empty, stripList_eq_nil]

theorem strStrip_strTake_blank (n : Nat) (s : String) (h : strStrip s = "") :
    strStrip (strTake n s) = "" := by
  rw [strStrip_eq_empty] at h ⊢
  unfold isBlankStr at h ⊢
  unfold strTake
  rw [List.all_eq_true] at h ⊢
  intro a ha
  exact h a (List.mem_of_mem_take (by simpa using ha))

theorem flatten_filter_cond (f : String) :
    (f != "" && strStrip f != "") = !isBlankStr f := by
  by_cases hb : isBlankStr f = true
  · have h1 : strStrip f = "" := (strStrip_eq_empty f).mpr hb
    rw [hb, h1]
    simp
  · have h1 : strStrip f ≠ "" := fun h => hb ((strStrip_eq_empty f).mp h)
    have h2 : f ≠ "" := by
      intro h
      exact hb (by rw [h]; rfl)
    simp [h1, h2, Bool.eq_false_iff.mpr hb]

theorem flattenList_eq_map (xs : List Value) : flattenList xs = xs.map flatten_field := by
  induction xs with
  | nil => rfl
  | cons x xs ih => simp [flattenList, ih]

theorem flattenSpecList_eq_map (xs : List Value) :
    flattenSpecList xs = xs.map flattenSpec := by
  induction xs with
  | nil => rfl
  | cons x xs ih => simp [flattenSpecList, ih]

/-- Strict comes-before relation of the ascending stable argsort: smaller
score first, equal scores ordered by ascending corpus index. -/
def rankLt (sims : List ℚ) (i j : Nat) : Prop :=
  ordKey sims i < ordKey sims j ∨ (ordKey sims i = ordKey sims j ∧ i < j)

theorem mem_insertRanked (sims : List ℚ) (i x : Nat) :
    ∀ l : List Nat, x ∈ insertRanked sims i l ↔ x = i ∨ x ∈ l := by
  intro l
  induction l with
  | nil => simp [insertRanked]
  | cons j rest ih =>
      unfold insertRanked
      split
      · simp [or_comm, or_assoc, or_left_comm]
      · simp only [List.mem_cons, ih]
        tauto

theorem mem_argsortAsc (sims : List ℚ) (x : Nat) :
    ∀ l : List Nat, x ∈ argsortAsc sims l ↔ x ∈ l := by
  intro l
  induction l with
  | nil => simp [argsortAsc]
  | cons i rest ih =>
      unfold argsortAsc
      rw [mem_insertRanked]
      simp [ih]

theorem pairwise_insertRanked (sims : List ℚ) (i : Nat) :
    ∀ l : List Nat, l.Pairwise (rankLt sims) → (∀ j ∈ l, i < j) →
      (insertRanked sims i l).Pairwise (rankLt sims) := by
  intro l
  induction l with
  | nil =>
      intro _ _
      simp [insertRanked]
  | cons j rest ih =>
      intro hp hlt
      unfold insertRanked
      split
      case isTrue hle =>
        refine List.Pairwise.cons ?_ hp
        intro x hx
        rcases List.mem_cons.mp hx with h | h
        · subst h
          rcases lt_or_eq_of_le hle with hlt2 | heq
          · exact Or.inl hlt2
          · exact Or.inr ⟨heq, hlt x (by simp)⟩
        · have hjx := (List.pairwise_cons.mp hp).1 x h
          rcases hjx with h1 | h1
          · rcases lt_or_eq_of_le hle with hlt2 | heq
            · exact Or.inl (lt_trans hlt2 h1)
            · exact Or.inl (heq ▸ h1)
          · rcases lt_or_eq_of_le hle with hlt2 | heq
            · exact Or.inl (h1.1 ▸ hlt2)
            · exact Or.inr ⟨heq.trans h1.1, hlt x (by simp [h])⟩
      case isFalse hgt =>
        have hjx := List.pairwise_cons.mp hp
        refine List.Pairwise.cons ?_ (ih hjx.2 (fun x hx => hlt x (by simp [hx])))
        intro x hx
        rcases (mem_insertRanked sims i x rest).mp hx with h | h
        · subst h
          exact Or.inl (lt_of_not_le hgt)
        · exact hjx.1 x h

theorem pairwise_argsortAsc (sims : List ℚ) :
    ∀ l : List Nat, l.Pairwise (· < ·) → (argsortAsc sims l).Pairwise (rankLt sims) := by
  intro l
  induction l with
  | nil =>
      intro _
      simp [argsortAsc]
  | cons i rest ih =>
      intro hp
      have hc := List.pairwise_cons.mp hp
      unfold argsortAsc
      refine pairwise_insertRanked sims i (argsortAsc sims rest) (ih hc.2) ?_
      intro j hj
      exact hc.1 j ((mem_argsortAsc sims j rest).mp hj)

/-- The ranked index list is strictly ordered: each earlier index has a
strictly greater score than each later one, or an equal score and a
strictly greater corpus index. -/
theorem rankIndices_pairwise (sims : List ℚ) :
    (rankIndices sims).Pairwise (fun i j => rankLt sims j i) := by
  unfold rankIndices
  rw [List.pairwise_reverse]
  exact pairwise_argsortAsc sims (List.range sims.length) (List.pairwise_lt_range _)

theorem mem_rankIndices (sims : List ℚ) (i : Nat) :
    i ∈ rankIndices sims ↔ i < sims.length := by
  unfold rankIndices
  rw [List.mem_reverse, mem_argsortAsc, List.mem_range]

/-- C10: flatten_field is total over every finitely nested combination of
None, strings, lists and mappings (it is a total Lean function on Value,
so it always returns a string and never fails), and it agrees with the
claimed behaviour: None and the empty string map to the empty string,
list elements whose flattened form is empty or whitespace-only are
dropped before joining with single spaces, and falsy mapping values are
dropped with the rest rendered via their string conversion. -/
theorem flatten_field_eq_spec : ∀ v, flatten_field v = flattenSpec v := by
  intro v
  induction v using valueIndOn with
  | h0 => rfl
  | h1 s => rfl
  | h2 xs ih =>
      show flatten_field (.vlist xs) = flattenSpec (.vlist xs)
      rw [flatten_field, flattenSpec, flattenList_eq_map, flattenSpecList_eq_map,
        List.map_congr_left ih,
        show (fun f => f != "" && strStrip f != "") = (fun f => !isBlankStr f) from
          funext flatten_filter_cond]
  | h3 kvs _ => rfl

/-- C6: the weighted text composer is deterministic: any two runs of
prepare_text_for_embedding on the same Case value produce the same
string.  The translated composer is a pure function of the Case alone
(the source reads no clock, randomness or unordered collection), so the
two results coincide. -/
theorem prepare_text_deterministic (c : Case) (t1 t2 : String)
    (h1 : prepare_text_for_embedding c = t1) (h2 : prepare_text_for_embedding c = t2) :
    t1 = t2 := by
  rw [← h1, ← h2]

/-- Witness for C6 at a concrete case. -/
theorem prepare_text_deterministic_witness :
    prepare_text_for_embedding [("court", Value.vstr "SC")] = "Court: SC" :=
  prepare_text_deterministic [("court", Value.vstr "SC")]
    (prepare_text_for_embedding [("court", Value.vstr "SC")]) "Court: SC" rfl (by decide)

example : normalize_legal_terms "Section Section 302" = "Section 302" := by decide

example : normalize_legal_terms "302" = "302" := by decide

/-- Counterexample to C7 as stated: the normalizer is not idempotent.  On
the input Section Section 302 the first pass rewrites only the inner
Section 302 (the outer Section is not followed by digits), leaving
Section 302, which a second pass rewrites again to 302. -/
theorem normalize_not_idempotent :
    normalize_legal_terms (normalize_legal_terms "Section Section 302")
      ≠ normalize_legal_terms "Section Section 302" := by decide

/-- C7 amended: renormalizing text that is already in normal form (a
fixed point of the normalizer) is a no-op; unrestricted idempotence fails
because a replacement can expose a fresh match for a later pass. -/
theorem normalize_fixed_point (x : String) (h : normalize_legal_terms x = x) :
    normalize_legal_terms (normalize_legal_terms x) = normalize_legal_terms x := by
  rw [h]
  exact h

/-- Witness for the amended C7 at a concrete normal form. -/
theorem normalize_fixed_point_witness :
    normalize_legal_terms (normalize_legal_terms "302") = normalize_legal_terms "302" :=
  normalize_fixed_point "302" (by decide)

/-- Present (non-empty) value in the sense of the spec for metadata tags:
not None and not an empty string, list or dict. -/
def isPresent (v : Value) : Prop :=
  v ≠ .vnull ∧ v ≠ .vstr "" ∧ v ≠ .vlist [] ∧ v ≠ .vdict []

instance (v : Value) : Decidable (isPresent v) := by
  unfold isPresent
  infer_instance

theorem truthy_iff_present (v : Value) : truthy v = true ↔ isPresent v := by
  cases v with
  | vnull => simp [truthy, isPresent]
  | vstr s =>
      simp only [truthy, isPresent, bne_iff_ne, ne_eq]
      constructor
      · intro h
        refine ⟨by simp, by simpa using h, by simp, by simp⟩
      · intro h
        simpa using h.2.1
  | vlist xs =>
      cases xs with
      | nil => simp [truthy, isPresent, List.isEmpty]
      | cons a l => simp [truthy, isPresent, List.isEmpty]
  | vdict kvs =>
      cases kvs with
      | nil => simp [truthy, isPresent, List.isEmpty]
      | cons a l => simp [truthy, isPresent, List.isEmpty]

/-- The metadata tags as the amended claim C8 describes them: the Type
tag appears iff case_type is present and not the sentinel Unknown, while
the Outcome and Court tags appear iff their value is present, with no
Unknown filtering. -/
def tagsAmended (c : Case) : List String :=
  (if isPresent (caseGetD c "case_type" (.vstr ""))
      ∧ caseGetD c "case_type" (.vstr "") ≠ .vstr "Unknown"
   then ["Type: " ++ pyStr (caseGetD c "case_type" (.vstr ""))] else [])
  ++ (if isPresent (caseGetD c "predicted_outcome" (.vstr ""))
      then ["Outcome: " ++ pyStr (caseGetD c "predicted_outcome" (.vstr ""))] else [])
  ++ (if isPresent (caseGetD c "court" (.vstr ""))
      then ["Court: " ++ pyStr (caseGetD c "court" (.vstr ""))] else [])

/-- C8 amended: the composed parts list ends with exactly the metadata
tags, where the Type tag requires a present value different from the
sentinel Unknown, but the Outcome and Court tags require only a present
value, so an Unknown outcome or court still produces a tag. -/
theorem metadata_tags_characterization (c : Case) :
    prepareParts c = prepareChunks c ++ tagsAmended c := by
  unfold prepareParts
  congr 1
  unfold metaTags tagsAmended
  rw [if_congr (and_congr_left fun _ =>
        truthy_iff_present (caseGetD c "case_type" (.vstr ""))) rfl rfl,
    if_congr (truthy_iff_present (caseGetD c "predicted_outcome" (.vstr ""))) rfl rfl,
    if_congr (truthy_iff_present (caseGetD c "court" (.vstr ""))) rfl rfl]

/-- Counterexample to C8 as stated: a predicted_outcome or court equal to
the sentinel Unknown still produces its tag, so the composite is the tag
text rather than the placeholder the claim would require. -/
theorem outcome_court_unknown_tagged :
    prepare_text_for_embedding [("predicted_outcome", .vstr "Unknown")] = "Outcome: Unknown"
    ∧ prepare_text_for_embedding [("court", .vstr "Unknown")] = "Court: Unknown"
    ∧ prepare_text_for_embedding [("predicted_outcome", .vstr "Unknown")]
        ≠ placeholderOf [("predicted_outcome", .vstr "Unknown")] := by decide

theorem pyLen_append (a b : String) : pyLen (a ++ b) = pyLen a + pyLen b := by
  unfold pyLen
  rw [String.data_append, List.length_append]

/-- A case that carries only an identifier composes to the bare
placeholder: all content guards fail and the combined text is empty, so
the placeholder is returned whatever the identifier is. -/
theorem prepare_only_id (s : String) :
    prepare_text_for_embedding [("case_id", .vstr s)]
      = "Case " ++ s ++ " - No extractable text" := rfl

/-- An identifier of 10001 characters. -/
def longCaseId : String := String.mk (List.replicate 10001 'x')

/-- Counterexample to C9 as stated: the placeholder branch is exempt from
the 10000-character cap, so a case whose only content is a 10001-character
identifier composes to a document longer than 10000 characters; and the
empty mapping returns the fixed text Empty case, not the placeholder. -/
theorem composer_length_counterexample :
    10000 < pyLen (prepare_text_for_embedding [("case_id", .vstr longCaseId)])
    ∧ prepare_text_for_embedding ([] : Case) ≠ placeholderOf ([] : Case) := by
  constructor
  · rw [prepare_only_id, pyLen_append, pyLen_append]
    have h1 : pyLen longCaseId = 10001 := by
      unfold longCaseId pyLen
      show (List.replicate 10001 'x').length = 10001
      exact List.length_replicate 10001 'x'
    rw [h1]
    norm_num [pyLen]
  · decide

/-- C9 amended: for every non-empty Case mapping, if the space-joined
concatenation of all field chunks is empty or whitespace-only the
composer returns exactly the placeholder built from the identifier, and
every non-placeholder result is at most 10000 characters (excess is
truncated); the placeholder itself is exempt from the cap, and the empty
mapping returns the fixed text Empty case instead. -/
theorem composer_length_and_placeholder (c : Case) (h : c ≠ []) :
    (strStrip (combinedOf c) = "" → prepare_text_for_embedding c = placeholderOf c)
    ∧ (prepare_text_for_embedding c ≠ placeholderOf c →
        pyLen (prepare_text_for_embedding c) ≤ 10000) := by
  have hne : ¬(c.isEmpty = true) := by
    cases c with
    | nil => exact absurd rfl h
    | cons a l => simp
  have hlen_tr : pyLen (truncatedOf c) ≤ 10000 := by
    unfold truncatedOf
    by_cases hlen : pyLen (combinedOf c) > 10000
    · rw [if_pos hlen]
      have e : pyLen (strTake 10000 (combinedOf c)) = min 10000 (pyLen (combinedOf c)) := by
        simp [pyLen, strTake, List.length_take]
      rw [e]
      exact min_le_left _ _
    · rw [if_neg hlen]
      exact le_of_not_lt hlen
  constructor
  · intro hblank
    have hstr : strStrip (truncatedOf c) = "" := by
      unfold truncatedOf
      by_cases hlen : pyLen (combinedOf c) > 10000
      · rw [if_pos hlen]
        exact strStrip_strTake_blank 10000 (combinedOf c) hblank
      · rw [if_neg hlen]
        exact hblank
    unfold prepare_text_for_embedding
    rw [if_neg hne, if_pos (Or.inr hstr)]
  · intro hnp
    unfold prepare_text_for_embedding at hnp ⊢
    rw [if_neg hne] at hnp ⊢
    by_cases hb : (truncatedOf c = "" ∨ strStrip (truncatedOf c) = "")
    · rw [if_pos hb] at hnp
      exact absurd rfl hnp
    · rw [if_neg hb]
      exact hlen_tr

/-- Witness for the amended C9: a case with only an identifier has a
blank combination and composes to the exact placeholder. -/
theorem composer_placeholder_witness :
    prepare_text_for_embedding [("case_id", Value.vstr "Z")]
      = placeholderOf [("case_id", Value.vstr "Z")] :=
  (composer_length_and_placeholder [("case_id", Value.vstr "Z")] (by decide)).1 (by decide)

def caseA : Case := [("case_id", Value.vstr "A")]

def caseB : Case := [("case_id", Value.vstr "B")]

/-- A two-case engine state with a valid two-row matrix. -/
def stTwo : EngineState :=
  ⟨[caseA, caseB], some [[1], [1]], "jinaai/jina-embeddings-v2-base-en", "cpu"⟩

/-- Counterexample to C2 as stated: with equal similarity scores the
ranker returns the case of larger corpus index first, because the
ascending stable argsort is reversed wholesale, so ties come out in
descending, not ascending, insertion order. -/
theorem equal_scores_reverse_order :
    (find_similar_by_text stTwo "murder" [1, 1] 2).1 = Except.ok [(caseB, 1), (caseA, 1)]
    ∧ caseA ≠ caseB := by decide

theorem rankIndices_take_map_pairwise (sims : List ℚ) (topk : Nat) (cs : List Case)
    (ti : List Nat) (hsub : List.Sublist ti (rankIndices sims)) :
    ((ti.take topk).map (fun i => (cs.getD i [], ordKey sims i))).Pairwise
      (fun a b : Case × ℚ => b.2 ≤ a.2) := by
  have h1 := rankIndices_pairwise sims
  have h2 := (h1.sublist hsub).sublist (List.take_sublist topk ti)
  refine h2.map _ ?_
  intro a b hab
  rcases hab with hlt | heq
  · exact le_of_lt hlt
  · exact le_of_eq heq.1

/-- C2 amended: the ranked index list is sorted by non-increasing
similarity, and ties appear in descending corpus index order (the
reverse of insertion order); consequently the scores of the returned
case lists of both find_similar_by_text and find_similar are
non-increasing. -/
theorem ranking_order_with_reverse_ties :
    (∀ sims : List ℚ,
      (rankIndices sims).Pairwise
        (fun i j => ordKey sims j < ordKey sims i
          ∨ (ordKey sims j = ordKey sims i ∧ j < i)))
    ∧ (∀ (st : EngineState) (q : String) (sims : List ℚ) (topk : Nat)
        (res : List (Case × ℚ)),
        (find_similar_by_text st q sims topk).1 = Except.ok res →
        res.Pairwise (fun a b => b.2 ≤ a.2))
    ∧ (∀ (st : EngineState) (qc : Case) (sims : List ℚ) (topk : Nat) (ex : Bool)
        (res : List (Case × ℚ)),
        (find_similar st qc sims topk ex).1 = Except.ok res →
        res.Pairwise (fun a b => b.2 ≤ a.2)) := by
  refine ⟨?_, ?_, ?_⟩
  · intro sims
    exact rankIndices_pairwise sims
  · intro st q sims topk res hres
    obtain ⟨cs, emb, mn, dev⟩ := st
    cases emb with
    | none => exact absurd hres (by simp [find_similar_by_text])
    | some m =>
        unfold find_similar_by_text at hres
        dsimp only at hres
        by_cases hq : (q = "" ∨ strStrip q = "")
        · rw [if_pos hq] at hres
          exact absurd hres (by simp)
        · rw [if_neg hq] at hres
          by_cases hall :
              ((rankIndices sims).take topk).all (fun i => i < cs.length) = true
          · rw [if_pos hall] at hres
            simp only [Except.ok.injEq] at hres
            subst hres
            exact rankIndices_take_map_pairwise sims topk cs (rankIndices sims)
              (List.Sublist.refl _)
          · rw [if_neg hall] at hres
            exact absurd hres (by simp)
  · intro st qc sims topk ex res hres
    obtain ⟨cs, emb, mn, dev⟩ := st
    cases emb with
    | none =>
        have : res = [] := by
          have h := hres
          simp only [find_similar] at h
          exact (Except.ok.injEq _ _).mp h.symm
        subst this
        exact List.Pairwise.nil
    | some m =>
        unfold find_similar at hres
        dsimp only at hres
        cases ex with
        | true =>
            rw [if_pos (rfl : true = true)] at hres
            by_cases hall : (rankIndices sims).all (fun i => i < cs.length) = true
            · rw [if_pos hall] at hres
              simp only [Except.ok.injEq] at hres
              subst hres
              exact rankIndices_take_map_pairwise sims topk cs _
                (List.filter_sublist (rankIndices sims))
            · rw [if_neg hall] at hres
              simp only [Except.ok.injEq] at hres
              subst hres
              exact List.Pairwise.nil
        | false =>
            rw [if_neg (by simp : ¬(false = true))] at hres
            by_cases hall :
                ((rankIndices sims).take topk).all (fun i => i < cs.length) = true
            · rw [if_pos hall] at hres
              simp only [Except.ok.injEq] at hres
              subst hres
              exact rankIndices_take_map_pairwise sims topk cs (rankIndices sims)
                (List.Sublist.refl _)
            · rw [if_neg hall] at hres
              simp only [Except.ok.injEq] at hres
              subst hres
              exact List.Pairwise.nil

/-- Witness for the amended C2 at a concrete tied query. -/
theorem ranking_order_witness :
    List.Pairwise (fun a b : Case × ℚ => b.2 ≤ a.2) [(caseB, 1), (caseA, 1)] :=
  ranking_order_with_reverse_ties.2.1 stTwo "murder" [1, 1] 2 [(caseB, 1), (caseA, 1)]
    (by decide)

/-- C3: rank-by-existing-case with the default exclude_self never returns
a case whose identifier equals the identifier of the query case: the
filter of lines 380-383 removes every corpus index whose stored case_id
compares equal to the identifier of the query. -/
theorem find_similar_excludes_self (st : EngineState) (X : Case) (sims : List ℚ)
    (topk : Nat) (xid : String) (res : List (Case × ℚ))
    (hmem : X ∈ st.cases) (hid : caseGet X "case_id" = .vstr xid)
    (hres : (find_similar st X sims topk true).1 = Except.ok res) :
    ∀ p ∈ res, caseGet p.1 "case_id" ≠ .vstr xid := by
  obtain ⟨cs, emb, mn, dev⟩ := st
  cases emb with
  | none =>
      have : res = [] := by
        have h := hres
        simp only [find_similar] at h
        exact (Except.ok.injEq _ _).mp h.symm
      subst this
      intro p hp
      exact absurd hp (by simp)
  | some m =>
      unfold find_similar at hres
      dsimp only at hres
      rw [if_pos (rfl : true = true)] at hres
      by_cases hall : (rankIndices sims).all (fun i => i < cs.length) = true
      · rw [if_pos hall] at hres
        simp only [Except.ok.injEq] at hres
        subst hres
        intro p hp
        obtain ⟨i, hi, hfi⟩ := List.mem_map.mp hp
        have hi2 := List.mem_of_mem_take hi
        have hfilter := (List.mem_filter.mp hi2).2
        have hne := of_decide_eq_true hfilter
        rw [← hfi]
        simpa [hid] using hne
      · rw [if_neg hall] at hres
        simp only [Except.ok.injEq] at hres
        subst hres
        intro p hp
        exact absurd hp (by simp)

/-- Witness for C3: querying with case A over the two-case corpus returns
only case B, whose identifier differs from A. -/
theorem find_similar_excludes_self_witness :
    caseGet caseB "case_id" ≠ Value.vstr "A" :=
  find_similar_excludes_self stTwo caseA [1, 1] 5 "A" [(caseB, 1)]
    (by decide) (by decide) (by decide) (caseB, 1) (by decide)

/-- Counterexample to C4 as stated: when no embedding matrix is
available, an empty query raises the missing-matrix error, not the
empty-query error, because the matrix check of line 403 runs before the
query check of line 406. -/
theorem blank_query_without_matrix :
    find_similar_by_text ⟨[], none, "m", "cpu"⟩ "" [] 5
      = (Except.error RankErr.cacheUnavailable, ⟨[], none, "m", "cpu"⟩)
    ∧ RankErr.cacheUnavailable ≠ RankErr.invalidQuery := by decide

/-- C4 amended: whenever an embedding matrix is available, an empty or
whitespace-only query makes find_similar_by_text raise the empty-query
error before any embedding happens, and the state (so the stored matrix)
is unchanged; without a matrix the missing-matrix error takes
precedence. -/
theorem blank_query_invalid (st : EngineState) (q : String) (sims : List ℚ) (topk : Nat)
    (hemb : st.embeddings ≠ none) (hq : q = "" ∨ strStrip q = "") :
    find_similar_by_text st q sims topk = (Except.error RankErr.invalidQuery, st) := by
  obtain ⟨cs, emb, mn, dev⟩ := st
  cases emb with
  | none => exact absurd rfl hemb
  | some m =>
      unfold find_similar_by_text
      dsimp only
      rw [if_pos hq]

/-- Witness for the amended C4 at a whitespace-only query. -/
theorem blank_query_invalid_witness :
    find_similar_by_text ⟨[], some [[1]], "m", "cpu"⟩ " " [] 5
      = (Except.error RankErr.invalidQuery, ⟨[], some [[1]], "m", "cpu"⟩) :=
  blank_query_invalid ⟨[], some [[1]], "m", "cpu"⟩ " " [] 5 (by decide)
    (Or.inr (by decide))

/-- Counterexample to C5 as stated: with no matrix available,
find_similar returns a plain empty list to the caller instead of failing
with the missing-matrix error (lines 358-360 log and return the empty
list). -/
theorem find_similar_swallows_missing_matrix :
    (⟨[], none, "m", "cpu"⟩ : EngineState).embeddings = none
    ∧ (find_similar ⟨[], none, "m", "cpu"⟩ [("case_id", Value.vstr "Q")] [] 5 true).1
        = Except.ok []
    ∧ Except.ok ([] : List (Case × ℚ)) ≠ Except.error RankErr.cacheUnavailable := by decide

/-- C5 amended: when no embedding matrix is available,
find_similar_by_text fails with the missing-matrix error reported to the
caller, while find_similar merely logs and returns an empty list with no
error surfaced; neither entry point computes embeddings as a side effect,
the state being returned unchanged. -/
theorem missing_matrix_behavior (st : EngineState) (q : String) (qc : Case)
    (sims : List ℚ) (topk : Nat) (ex : Bool) (hemb : st.embeddings = none) :
    find_similar_by_text st q sims topk = (Except.error RankErr.cacheUnavailable, st)
    ∧ find_similar st qc sims topk ex = (Except.ok [], st) := by
  obtain ⟨cs, emb, mn, dev⟩ := st
  simp only at hemb
  subst hemb
  exact ⟨rfl, rfl⟩

/-- Witness for the amended C5 at a concrete empty state. -/
theorem missing_matrix_behavior_witness :
    find_similar_by_text ⟨[], none, "m", "cpu"⟩ "q" [] 5
        = (Except.error RankErr.cacheUnavailable, ⟨[], none, "m", "cpu"⟩)
    ∧ find_similar ⟨[], none, "m", "cpu"⟩ [] [] 5 true
        = (Except.ok [], ⟨[], none, "m", "cpu"⟩) :=
  missing_matrix_behavior ⟨[], none, "m", "cpu"⟩ "q" [] [] 5 true rfl

/-- A cache file whose stored model identifier and case count both
disagree with the configured model and the loaded corpus. -/
def staleCache : CacheData := ⟨[[1]], "all-MiniLM-L6-v2", 384, 1, "cpu"⟩

/-- The startup state before load_or_compute_embeddings runs: two cases
loaded, no matrix yet, the jina model configured. -/
def startupState : EngineState :=
  ⟨[caseA, caseB], none, "jinaai/jina-embeddings-v2-base-en", "cpu"⟩

/-- C1: the code contradicts the claimed cache validity invariant.  The
cache stores a model identifier and case count precisely so staleness can
be detected, yet load_or_compute_embeddings installs any cache that
deserializes, without comparing either field: here a cache whose count
and model both mismatch is loaded verbatim and then serves a query,
returning only the single stale row and never recomputing. -/
theorem stale_cache_loaded_and_served :
    (load_or_compute_embeddings startupState (some staleCache) [[2], [3]]).embeddings
        = some staleCache.embeddings
    ∧ staleCache.numCases ≠ startupState.cases.length
    ∧ staleCache.modelName ≠ startupState.modelName
    ∧ (find_similar_by_text (load_or_compute_embeddings startupState (some staleCache) [[2], [3]])
        "murder" [1] 5).1 = Except.ok [(caseA, 1)] := by decide
